import Mathlib

/-!
Verification of the plotly-graph repository (src/igviz/igviz.py) against its
specification.  The file shallowly embeds the module: Python dicts become
ordered association lists, in-place graph mutation becomes explicit state
passing, exceptions become `Except`, and floating point coordinates become
exact rationals (the claims only concern exact arithmetic identities such as
midpoints and the 85/15 interpolation).
-/

namespace Igviz

/-- Python attribute values appearing on nodes and edges: numbers or strings.
These two constructors keep equality, dict-membership tests and string
formatting of attribute values faithful to the source. -/
inductive Val where
  | num : Int → Val
  | str : String → Val
deriving DecidableEq, Repr

/-- Node identifiers (opaque in the source; naturals here). -/
abbrev Node := Nat

/-- A 2-D coordinate, exact-rational stand-in for the source's floats. -/
abbrev Pt := ℚ × ℚ

/-- One edge as yielded by `G.edges(data=True)`: endpoints plus its attribute
dict. Parallel edges are separate entries of the edge list. -/
structure Edge where
  src : Node
  tgt : Node
  attrs : List (String × Val)
deriving DecidableEq, Repr

/-- The networkx graph as the module consumes it: node iteration order, edge
iteration order (with data), directedness, the per-node "pos" attribute
(singled out because igviz reads and writes it), and the remaining node
attributes. -/
structure Graph where
  nodes : List Node
  edges : List Edge
  directed : Bool
  pos : Node → Option Pt
  nattrs : Node → List (String × Val)

/-- Python exceptions that the module can raise or propagate. -/
inductive Err where
  | keyError : String → Err
  | valueError : Err
  | indexError : Err
  | typeError : String → Err
  | nameError : String → Err
deriving DecidableEq, Repr

/-- Lookup in a Python dict modelled as an ordered association list
(first match; keys are unique by construction of `dictSet`). -/
def lookupD {κ ν : Type} [DecidableEq κ] : List (κ × ν) → κ → Option ν
  | [], _ => none
  | kv :: rest, k => if kv.1 = k then some kv.2 else lookupD rest k

/-- `d[k] = v` on a Python dict: overwrite in place if the key exists,
else append at the end (insertion order preserved). -/
def dictSet {κ ν : Type} [DecidableEq κ] : List (κ × ν) → κ → ν → List (κ × ν)
  | [], k, v => [(k, v)]
  | kv :: rest, k, v => if kv.1 = k then (k, v) :: rest else kv :: dictSet rest k v

/-- Python `list.index` returning `none` instead of raising ValueError;
callers turn `none` into the error. -/
def listIndexOf {α : Type} [DecidableEq α] : List α → α → Option Nat
  | [], _ => none
  | a :: rest, x => if a = x then some 0 else (listIndexOf rest x).map (· + 1)

/-- Python truthiness of an optional string (None and "" are falsy). -/
def truthyStr : Option String → Bool
  | none => false
  | some s => !(s = "")

/-- Python truthiness of an optional list (None and [] are falsy). -/
def truthyList {α : Type} : Option (List α) → Bool
  | none => false
  | some l => !l.isEmpty

/-- Python `v in d` for a dict keyed by strings: the value `v` equals a key
iff it is a string equal to that key (an int never equals a str). -/
def valEqKey : Val → String → Bool
  | .str s, k => s = k
  | .num _, _ => false

/-- Python `str(v)` as used in f-string interpolation of a scalar value. -/
def renderVal : Val → String
  | .num i => toString i
  | .str s => s

/-- Python `repr(v)` as used when a value appears inside a printed list. -/
def reprVal : Val → String
  | .num i => toString i
  | .str s => "\x27" ++ s ++ "\x27"

/-- Python `str(l)` for a list of values, e.g. `[1, 2]`. -/
def reprValList (l : List Val) : String :=
  "[" ++ String.intercalate ", " (l.map reprVal) ++ "]"

/-- `G.degree(node)`: number of incident edge endpoints (a self-loop counts
twice, as in networkx). -/
def Graph.degree (G : Graph) (n : Node) : Nat :=
  (G.edges.filter (fun e => e.src == n)).length
    + (G.edges.filter (fun e => e.tgt == n)).length

/-- `G.neighbors(node)`: successors for a directed graph, adjacent nodes for
an undirected one; duplicates (parallel edges) reported once as in networkx. -/
def Graph.neighbors (G : Graph) (n : Node) : List Node :=
  if G.directed then
    ((G.edges.filter (fun e => e.src == n)).map (fun e => e.tgt)).dedup
  else
    (((G.edges.filter (fun e => e.src == n)).map (fun e => e.tgt))
      ++ ((G.edges.filter (fun e => e.tgt == n)).map (fun e => e.src))).dedup

/-- `nx.get_node_attributes(G, "pos")`: the nodes carrying a pos attribute,
with their positions, in node iteration order. -/
def getPosAttrs (G : Graph) : List (Node × Pt) :=
  G.nodes.filterMap (fun n => (G.pos n).map (fun p => (n, p)))

/-- Helper for `layoutAlg`: place the nodes of a list starting at
index `i`, one distinct coordinate pair per list position. -/
def placeNodes (seed : ℚ) : List Node → Nat → List (Node × Pt)
  | [], _ => []
  | n :: rest, i => (n, (seed + i, seed - i)) :: placeNodes seed rest (i + 1)

/-- Modelled from the spec: the seven layout algorithms (random, circular,
kamada, planar, spring, spectral, spiral) are external networkx collaborators,
out of scope per the spec; their documented contract is to return a position
dict keyed by every node of the graph.  Each algorithm is modelled as a
placement assigning the node at iteration index `i` the coordinates
`(seed + i, seed - i)`, which satisfies that contract; the `seed` keeps the
seven modelled algorithms distinct. -/
def layoutAlg (seed : ℚ) (G : Graph) : List (Node × Pt) :=
  placeNodes seed G.nodes 0

/-- The `layout_functions` dict of `PlotGraph._apply_layout`
(igviz.py:439-447), with each external algorithm represented by the seed of
its modelled placement. -/
def layoutSeeds : List (String × ℚ) :=
  [("random", 0), ("circular", 1), ("kamada", 2), ("planar", 3),
   ("spring", 4), ("spectral", 5), ("spiral", 6)]

/-- `nx.set_node_attributes(G, pos_dict, "pos")`: write each position of the
dict onto its node's "pos" attribute; nodes absent from the dict keep their
old attribute, and nothing else on the graph changes. -/
def setNodeAttrsPos (G : Graph) (pd : List (Node × Pt)) : Graph :=
  { G with pos := fun n =>
      match lookupD pd n with
      | some p => some p
      | none => G.pos n }

/-- `PlotGraph._apply_layout` (igviz.py:434-453): look the layout name up in
the `layout_functions` dict (KeyError if absent, raised before any mutation),
run the external algorithm, write the positions back onto the graph, and
return the position dict.  The returned graph is the in-place-mutated input. -/
def apply_layout (G : Graph) (layout : String) : Except Err (List (Node × Pt)) × Graph :=
  match lookupD layoutSeeds layout with
  | none => (.error (.keyError layout), G)
  | some seed =>
    let pd := layoutAlg seed G
    (.ok pd, setNodeAttrsPos G pd)

/-- The dict comprehension of igviz.py:190 building the inverse
position-to-node index: iterate the position dict in order, later entries
overwriting earlier ones at an equal position. -/
def inverse_pos_dict (pd : List (Node × Pt)) : List (Pt × Node) :=
  pd.foldl (fun m kv => dictSet m kv.2 kv.1) []

/-- The state `PlotGraph.__init__` leaves behind for the other methods:
`self.pos_dict` and `self.inverse_pos_dict` (the mutated graph is threaded
separately, since Python mutates the caller's graph in place). -/
structure PlotState where
  posDict : List (Node × Pt)
  invPosDict : List (Pt × Node)
deriving DecidableEq, Repr

/-- The two no-explicit-layout branches of `PlotGraph.__init__`
(igviz.py:185-188): if no node carries a pos attribute, apply the random
layout; otherwise reuse whatever pos attributes exist. -/
def initNoLayout (G : Graph) : Except Err PlotState × Graph :=
  if getPosAttrs G = [] then
    match apply_layout G "random" with
    | (.error e, G1) => (.error e, G1)
    | (.ok pd, G1) => (.ok ⟨pd, inverse_pos_dict pd⟩, G1)
  else
    (.ok ⟨getPosAttrs G, inverse_pos_dict (getPosAttrs G)⟩, G)

/-- `PlotGraph.__init__` (igviz.py:176-190).  `if layout:` is Python
truthiness, so both `None` and the empty string fall through to the
attribute-reuse / random branches. -/
def initPlot (G : Graph) (layout : Option String) : Except Err PlotState × Graph :=
  match layout with
  | some s =>
    if s = "" then initNoLayout G
    else
      match apply_layout G s with
      | (.error e, G1) => (.error e, G1)
      | (.ok pd, G1) => (.ok ⟨pd, inverse_pos_dict pd⟩, G1)
  | none => initNoLayout G

/-- A size or color method parameter: Python distinguishes a literal list from
a string (keyword or attribute name / literal color) by `isinstance`. -/
inductive Method where
  | ofList : List Val → Method
  | ofStr : String → Method
deriving DecidableEq, Repr

/-- The node scatter trace: the fields igviz fills (igviz.py:204-264). -/
structure NodeTrace where
  xs : List ℚ
  ys : List ℚ
  text : List Val
  hovertext : List String
  sizes : List Val
  colors : List Val
  mode : String
deriving DecidableEq, Repr

/-- `self.G.nodes[node][key]`: attribute lookup raising KeyError if absent. -/
def attrLookupN (G : Graph) (n : Node) (k : String) : Except Err Val :=
  match lookupD (G.nattrs n) k with
  | some v => .ok v
  | none => .error (.keyError k)

/-- `edge[2][key]`: edge attribute lookup raising KeyError if absent. -/
def attrLookupE (e : Edge) (k : String) : Except Err Val :=
  match lookupD e.attrs k with
  | some v => .ok v
  | none => .error (.keyError k)

/-- The body of the per-node loop of `PlotGraph.generate_node_traces`
(igviz.py:230-262): append coordinates, optional label text, hover text,
then the size and color chosen by the method parameters.  A list-valued
method replaces the whole size/color list (assignment in the source);
the attribute branches raise KeyError on a missing attribute; an unknown
color string that is not an attribute of the node is used as a literal
color. -/
def nodeStep (G : Graph) (color_method size_method : Method)
    (node_label : Option String) (node_text : Option (List String))
    (tr : NodeTrace) (n : Node) : Except Err NodeTrace := do
  let text0 := "Node: " ++ toString n ++ "<br>Degree: " ++ toString (G.degree n)
  let (x, y) ← match G.pos n with
    | some p => Except.ok p
    | none => Except.error (Err.keyError "pos")
  let tr := { tr with xs := tr.xs ++ [x], ys := tr.ys ++ [y] }
  let tr ← match node_label with
    | some lbl =>
      if lbl = "" then pure tr
      else do
        let v ← attrLookupN G n lbl
        pure { tr with text := tr.text ++ [v] }
    | none => pure tr
  let text ← match node_text with
    | some (p :: ps) =>
      (p :: ps).foldlM
        (fun t prop => do
          let v ← attrLookupN G n prop
          pure (t ++ "<br></br>" ++ prop ++ ": " ++ renderVal v))
        text0
    | _ => pure text0
  let tr := { tr with hovertext := tr.hovertext ++ [text.trim] }
  let tr ← match size_method with
    | .ofList l => pure { tr with sizes := l }
    | .ofStr s =>
      if s = "degree" then
        pure { tr with sizes := tr.sizes ++ [Val.num ((G.degree n : Int) + 12)] }
      else if s = "static" then
        pure { tr with sizes := tr.sizes ++ [Val.num 28] }
      else do
        let v ← attrLookupN G n s
        pure { tr with sizes := tr.sizes ++ [v] }
  let tr ← match color_method with
    | .ofList l => pure { tr with colors := l }
    | .ofStr s =>
      if s = "degree" then
        pure { tr with colors := tr.colors ++ [Val.num (G.degree n : Int)] }
      else
        match lookupD (G.nattrs n) s with
        | some v => pure { tr with colors := tr.colors ++ [v] }
        | none => pure { tr with colors := tr.colors ++ [Val.str s] }
  pure tr

/-- `PlotGraph.generate_node_traces` (igviz.py:192-264): fold the per-node
body over the nodes in iteration order, starting from the empty trace with
mode markers or markers+text depending on node label truthiness. -/
def generate_node_traces (G : Graph) (color_method size_method : Method)
    (node_label : Option String) (node_text : Option (List String)) :
    Except Err NodeTrace :=
  G.nodes.foldlM (nodeStep G color_method size_method node_label node_text)
    ⟨[], [], [], [], [], [],
      if truthyStr node_label then "markers+text" else "markers"⟩

/-- The edge line trace: x and y sequences with `None` gap sentinels
(igviz.py:298-305). -/
structure EdgeTrace where
  xs : List (Option ℚ)
  ys : List (Option ℚ)
  mode : String
deriving DecidableEq, Repr

/-- The invisible midpoint trace hosting edge hover text and labels
(igviz.py:309-317). -/
structure MiddleTrace where
  xs : List ℚ
  ys : List ℚ
  text : List Val
  hovertext : List String
  mode : String
deriving DecidableEq, Repr

/-- The `edge_properties` dict: pair of endpoints, to dict of attribute name
to list of aggregated values (igviz.py:295). -/
abbrev Props := List ((Node × Node) × List (String × List Val))

/-- Accumulated state of the edge loop of `generate_edge_traces`. -/
structure EdgeState where
  et : EdgeTrace
  mt : MiddleTrace
  props : Props
deriving DecidableEq, Repr

/-- One iteration of the `for prop in edge_text` loop (igviz.py:333-335).
The membership test of the source compares the attribute VALUE
`edge[2][prop]` against the KEYS of the per-pair dict (`x in d` tests keys),
so unless the value happens to equal some requested attribute name the
aggregation list of `prop` is reset to `[]` on every sighting. -/
def aggInner (e : Edge) (pp : List (String × List Val)) (prop : String) :
    Except Err (List (String × List Val)) :=
  match attrLookupE e prop with
  | .error err => .error err
  | .ok v =>
    if pp.any (fun kv => valEqKey v kv.1) then .ok pp
    else .ok (dictSet pp prop [])

/-- The `if edge_text:` block of the edge loop (igviz.py:332-336), embedded
exactly as written, including its slips: the reset behaviour of `aggInner`,
and the final append `edge_properties[edge_pair][prop] += [edge[2][prop]]`,
which sits OUTSIDE the `for prop` loop and therefore runs once per edge with
`prop` bound to the LAST requested attribute name. -/
def aggregateProps (props : Props) (pair : Node × Node) (ps : List String)
    (e : Edge) : Except Err Props :=
  match lookupD props pair with
  | none => .error (.keyError "edge_pair")
  | some pp0 =>
    match ps.foldlM (aggInner e) pp0 with
    | .error err => .error err
    | .ok pp1 =>
      let lastProp := ps.getLastD ""
      match lookupD pp1 lastProp with
      | none => .error (.keyError lastProp)
      | some cur =>
        match attrLookupE e lastProp with
        | .error err => .error err
        | .ok v => .ok (dictSet props pair (dictSet pp1 lastProp (cur ++ [v])))

/-- Dispatch on the truthiness of `edge_text` before the aggregation block
(`if edge_text:`, igviz.py:332): `None` and `[]` skip it. -/
def aggStep (edge_text : Option (List String)) (props : Props)
    (pair : Node × Node) (e : Edge) : Except Err Props :=
  match edge_text with
  | some (p :: ps) => aggregateProps props pair (p :: ps) e
  | _ => .ok props

/-- The `if edge_label:` block (igviz.py:338-340): APPEND
`edge[2][edge_label]` to the midpoint trace text on every edge sighting and
switch the trace mode to markers+text. -/
def lblStep (edge_label : Option String) (mt : MiddleTrace) (props : Props)
    (e : Edge) : Except Err (MiddleTrace × Props) :=
  match edge_label with
  | some lbl =>
    if lbl = "" then .ok (mt, props)
    else
      match attrLookupE e lbl with
      | .error err => .error err
      | .ok v =>
        .ok ({ mt with text := mt.text ++ [v], mode := "markers+text" }, props)
  | none => .ok (mt, props)

/-- The midpoint allocation block (igviz.py:325-330): when hover text or a
label was requested and the `(edge[0], edge[1])` pair is new, record the pair
in `edge_properties` and append a midpoint mark at the arithmetic mean of the
endpoints. -/
def allocMid (edge_label : Option String) (edge_text : Option (List String))
    (x0 y0 x1 y1 : ℚ) (mt : MiddleTrace) (props : Props) (e : Edge) :
    MiddleTrace × Props :=
  if truthyList edge_text || truthyStr edge_label then
    match lookupD props (e.src, e.tgt) with
    | some _ => (mt, props)
    | none =>
      ({ mt with xs := mt.xs ++ [(x0 + x1) / 2], ys := mt.ys ++ [(y0 + y1) / 2] },
       dictSet props (e.src, e.tgt) [])
  else (mt, props)

/-- The midpoint/label part of the edge loop body (igviz.py:325-340): the
allocation block, then the hover-text aggregation block, then the label
block. -/
def edgeStepMid (edge_label : Option String) (edge_text : Option (List String))
    (x0 y0 x1 y1 : ℚ) (mt : MiddleTrace) (props : Props) (e : Edge) :
    Except Err (MiddleTrace × Props) :=
  match aggStep edge_text
      (allocMid edge_label edge_text x0 y0 x1 y1 mt props e).2 (e.src, e.tgt) e with
  | .error err => .error err
  | .ok props2 =>
    lblStep edge_label
      (allocMid edge_label edge_text x0 y0 x1 y1 mt props e).1 props2 e

/-- One iteration of the edge loop (igviz.py:319-340): look up both endpoint
positions (KeyError "pos" if absent), append the two endpoints plus the `None`
gap sentinel to the line trace, then the midpoint/label logic. -/
def edgeStep (G : Graph) (edge_label : Option String)
    (edge_text : Option (List String)) (s : EdgeState) (e : Edge) :
    Except Err EdgeState :=
  match G.pos e.src, G.pos e.tgt with
  | some (x0, y0), some (x1, y1) =>
    let et : EdgeTrace :=
      ⟨s.et.xs ++ [some x0, some x1, none], s.et.ys ++ [some y0, some y1, none],
        s.et.mode⟩
    match edgeStepMid edge_label edge_text x0 y0 x1 y1 s.mt s.props e with
    | .ok (mt, props) => .ok ⟨et, mt, props⟩
    | .error err => .error err
  | _, _ => .error (.keyError "pos")

/-- The hover-text rendering of igviz.py:342-348: one line per attribute name,
`name: [values]`, joined per pair in insertion order. -/
def renderProps (props : Props) : List String :=
  props.map (fun pr =>
    String.intercalate "\n"
      (pr.2.map (fun kv => kv.1 ++ ": " ++ reprValList kv.2)))

/-- The freshly initialised traces of igviz.py:293-317: empty line trace with
mode lines or lines+text by label truthiness, empty midpoint trace in marker
mode, empty `edge_properties` dict. -/
def initES (edge_label : Option String) : EdgeState :=
  ⟨⟨[], [], if truthyStr edge_label then "lines+text" else "lines"⟩,
   ⟨[], [], [], [], "markers"⟩, []⟩

/-- `PlotGraph.generate_edge_traces` (igviz.py:266-350): fold the edge loop
over the edges in iteration order and, if edge hover text was requested,
assign the rendered aggregated properties as the midpoint hover text. -/
def generate_edge_traces (G : Graph) (edge_label : Option String)
    (edge_text : Option (List String)) : Except Err EdgeState :=
  match G.edges.foldlM (edgeStep G edge_label edge_text) (initES edge_label) with
  | .error e => .error e
  | .ok s =>
    if truthyList edge_text then
      .ok { s with mt := { s.mt with hovertext := renderProps s.props } }
    else
      .ok s

/-- One annotation of the figure layout: the caption (paper-referenced) or a
directed-edge arrow (data-referenced, tail at ax/ay). -/
structure Annot where
  text : String
  showarrow : Bool
  x : ℚ
  y : ℚ
  ax : Option ℚ
  ay : Option ℚ
  arrowsize : Nat
  paperRef : Bool
deriving DecidableEq, Repr

/-- The static caption annotation of igviz.py:374-383 at paper position
(0.005, -0.002). -/
def captionAnnot (txt : String) : Annot :=
  ⟨txt, false, 1 / 200, -1 / 500, none, none, 0, true⟩

/-- One arrowhead annotation of igviz.py:386-403: tail anchored at the source
position, head at 0.85 times the target plus 0.15 times the source,
componentwise. -/
def arrowAnnot (src tgt : Pt) (arrow_size : Nat) : Annot :=
  ⟨"", true, tgt.1 * (85 / 100) + src.1 * (15 / 100),
    tgt.2 * (85 / 100) + src.2 * (15 / 100), some src.1, some src.2,
    arrow_size, false⟩

/-- `(G.pos n).getD (0, 0)`; used only under hypotheses making the lookup
total, to state closed forms without option matching. -/
def posD (G : Graph) (n : Node) : Pt :=
  (G.pos n).getD (0, 0)

/-- The annotation assembly of `PlotGraph.generate_figure` (igviz.py:371-403):
normalise a falsy annotation text to the empty string, start from the caption,
and, iff the graph is directed (`isinstance(self.G, (nx.DiGraph,
nx.MultiDiGraph))`), extend with one arrow per edge in iteration order, the
endpoint position lookups raising KeyError "pos" when absent. -/
def mkAnnots (G : Graph) (annot_text : Option String) (arrow_size : Nat) :
    Except Err (List Annot) :=
  if G.directed then
    match G.edges.mapM (fun e =>
        match G.pos e.src, G.pos e.tgt with
        | some p0, some p1 => Except.ok (arrowAnnot p0 p1 arrow_size)
        | _, _ => Except.error (Err.keyError "pos")) with
    | .error e => .error e
    | .ok arrows => .ok (captionAnnot (annot_text.getD "") :: arrows)
  else
    .ok [captionAnnot (annot_text.getD "")]

/-- The renderable figure the module is meant to return. -/
structure Figure where
  edgeTrace : EdgeTrace
  nodeTrace : NodeTrace
  middleTrace : MiddleTrace
  annots : List Annot
deriving DecidableEq, Repr

/-- `PlotGraph.generate_figure` (igviz.py:352-432): the body builds the
annotation list and then line 405 evaluates the name `node_style`, which is
not bound in the function (its parameter is named `node_layout` and nothing
defines `node_style`), so Python raises NameError before the FigureWidget is
constructed. -/
def generate_figure (G : Graph) (annot_text : Option String)
    (arrow_size : Nat) : Except Err Figure :=
  match mkAnnots G annot_text arrow_size with
  | .error e => .error e
  | .ok _annots => .error (.nameError "node_style")

/-- The configuration parameters of `plot` that the embedded computation
inspects (the purely cosmetic ones, such as the colorscale name or font size,
are carried through to the plotting library unexamined). -/
structure Params where
  layout : Option String := none
  size_method : Method := .ofStr "degree"
  color_method : Method := .ofStr "degree"
  node_label : Option String := none
  node_text : Option (List String) := none
  edge_label : Option String := none
  edge_text : Option (List String) := none
  annot_text : Option String := none
  arrow_size : Nat := 2

/-- The module-level `plot` function (igviz.py:8-172): construct the
PlotGraph (layout resolution, may mutate the graph and may raise), generate
the node and edge traces (may raise KeyError), then call `generate_figure`.
That call (igviz.py:159-172) passes the keyword argument `node_style=`, but
`generate_figure` (igviz.py:352-365) declares the parameter `node_layout`,
so Python raises TypeError (unexpected keyword argument) at the call site on
every invocation that reaches it; the figure is never built.  The returned
graph is the caller's graph after any in-place mutation performed so far. -/
def plot (G : Graph) (p : Params) : Except Err Figure × Graph :=
  match initPlot G p.layout with
  | (.error e, G1) => (.error e, G1)
  | (.ok _st, G1) =>
    match generate_node_traces G1 p.color_method p.size_method p.node_label
        p.node_text with
    | .error e => (.error e, G1)
    | .ok _ =>
      match generate_edge_traces G1 p.edge_label p.edge_text with
      | .error e => (.error e, G1)
      | .ok _ => (.error (.typeError "node_style"), G1)

/-- The dimmed-node color of `on_hover` (igviz.py:483). -/
def grayColor : Val := .str "#E4E4E4"

/-- The body of the `for neighbour in neighbours` loop of `on_hover`
(igviz.py:487-489): find the neighbour's trace position with `list.index` on
the pos_dict keys (ValueError if absent) and restore its original color
there (IndexError on an out-of-range assignment, as in Python). -/
def hoverStep (nodesL : List Node) (colors : List Val) (acc : List Val)
    (nb : Node) : Except Err (List Val) :=
  match listIndexOf nodesL nb with
  | none => .error .valueError
  | some tp =>
    if tp < acc.length then .ok (acc.set tp (colors.getD tp grayColor))
    else .error .indexError

/-- `PlotGraph.on_hover` (igviz.py:455-492) acting on the node trace colors:
an empty point list returns unchanged; otherwise the hovered screen position
is mapped back to a node through the inverse position index (KeyError if
absent), all colors are reset to gray, and the hovered index plus the
trace position (pos_dict key order) of every neighbour get their original
color back; out-of-range indexing raises IndexError, a neighbour missing
from pos_dict raises ValueError, as `list.index` would. -/
def on_hover (G : Graph) (posDict : List (Node × Pt))
    (invPosDict : List (Pt × Node)) (colors : List Val)
    (pointInds : List Nat) (xs ys : List ℚ) : Except Err (List Val) :=
  match pointInds with
  | [] => .ok colors
  | i0 :: _ =>
    match xs, ys with
    | x0 :: _, y0 :: _ =>
      match lookupD invPosDict (x0, y0) with
      | none => .error (.keyError "inverse_pos_dict")
      | some node =>
        if i0 < colors.length then
          (G.neighbors node).foldlM (hoverStep (posDict.map Prod.fst) colors)
            ((List.replicate colors.length grayColor).set i0
              (colors.getD i0 grayColor))
        else .error .indexError
    | _, _ => .error .indexError

/-- `PlotGraph.on_unhover` (igviz.py:494-515): restore the trace's color and
size arrays from the saved original node trace. -/
def on_unhover (original trace : NodeTrace) : NodeTrace :=
  { trace with colors := original.colors, sizes := original.sizes }

/-! ### Concrete inputs used by counterexamples and witnesses -/

/-- A one-node graph with no attributes. -/
def C1G : Graph := ⟨[0], [], false, fun _ => none, fun _ => []⟩

/-- A directed two-node graph with one attributed edge and a name attribute
on every node. -/
def C1G2 : Graph :=
  ⟨[0, 1], [⟨0, 1, [("w", .num 5)]⟩], true, fun _ => none,
    fun n => [("name", .str (toString n))]⟩

/-- A configuration exercising many of the optional parameters at once. -/
def C1P2 : Params :=
  { layout := some "circular", size_method := .ofStr "static",
    color_method := .ofStr "#FF0000", node_label := some "name",
    node_text := some ["name"], edge_label := some "w",
    edge_text := some ["w"], annot_text := some "cap", arrow_size := 3 }

/-- An undirected multigraph: two parallel edges between nodes 1 and 2, the
first carrying attribute w = 1, the second w = 2; both nodes positioned. -/
def C2G : Graph :=
  ⟨[1, 2], [⟨1, 2, [("w", .num 1)]⟩, ⟨1, 2, [("w", .num 2)]⟩], false,
    fun n => if n = 1 then some (0, 0) else if n = 2 then some (2, 0) else none,
    fun _ => []⟩

/-- The observable outcome of edge trace assembly on `C2G` with hover text
requested for attribute w: midpoint count, the aggregated per-pair
properties, and the rendered hover text. -/
def C2obs : Option (Nat × Option (List (String × List Val)) × List String) :=
  match generate_edge_traces C2G none (some ["w"]) with
  | .ok s => some (s.mt.xs.length, lookupD s.props (1, 2), s.mt.hovertext)
  | .error _ => none

/-- A two-node graph in which node 0 carries a pos attribute and node 1 does
not. -/
def C3G : Graph :=
  ⟨[0, 1], [], false, fun n => if n = 0 then some (1, 2) else none, fun _ => []⟩

/-- The plot state `PlotGraph.__init__` builds for `C3G` with no layout. -/
def C3st : Option PlotState :=
  match (initPlot C3G none).1 with
  | .ok st => some st
  | .error _ => none

/-- A graph with pos attributes on both of its nodes (for the reuse branch
of the amended claim 3). -/
def W3G : Graph :=
  ⟨[0, 1], [], false,
    fun n => if n = 0 then some (1, 2) else if n = 1 then some (3, 4) else none,
    fun _ => []⟩

/-- A graph with no pos attributes at all (for the random branch of the
amended claim 3). -/
def W3G2 : Graph := ⟨[5, 6], [], false, fun _ => none, fun _ => []⟩

/-- An undirected multigraph with two parallel labelled edges: the first
carries lbl = "a", the second lbl = "b". -/
def C4G : Graph :=
  ⟨[1, 2], [⟨1, 2, [("lbl", .str "a")]⟩, ⟨1, 2, [("lbl", .str "b")]⟩], false,
    fun n => if n = 1 then some (0, 0) else if n = 2 then some (2, 0) else none,
    fun _ => []⟩

/-- The observable outcome of edge trace assembly on `C4G` with the edge
label lbl requested: the always-visible text entries and the number of
midpoint marks. -/
def C4obs : Option (List Val × Nat) :=
  match generate_edge_traces C4G (some "lbl") none with
  | .ok s => some (s.mt.text, s.mt.xs.length)
  | .error _ => none

/-- A graph for the claim 4 witness: two parallel edges labelled "x" and
"y". -/
def W4G : Graph :=
  ⟨[1, 2], [⟨1, 2, [("lbl", .str "x")]⟩, ⟨1, 2, [("lbl", .str "y")]⟩], false,
    fun n => if n = 1 then some (0, 0) else if n = 2 then some (4, 2) else none,
    fun _ => []⟩

/-- A two-edge graph for the claim 5 witness. -/
def W5G : Graph :=
  ⟨[1, 2], [⟨1, 2, []⟩, ⟨2, 1, []⟩], false,
    fun n => if n = 1 then some (0, 0) else if n = 2 then some (1, 1) else none,
    fun _ => []⟩

/-- The edge state produced for `W5G` without hover text or labels. -/
def W5s : EdgeState :=
  ⟨⟨[some 0, some 1, none, some 1, some 0, none],
    [some 0, some 1, none, some 1, some 0, none], "lines"⟩,
   ⟨[], [], [], [], "markers"⟩, []⟩

/-- The directed two-node one-edge graph of the specification's
directed-graph scenario, A = 0 at (0, 0), B = 1 at (1, 1). -/
def W6G : Graph :=
  ⟨[0, 1], [⟨0, 1, []⟩], true,
    fun n => if n = 0 then some (0, 0) else if n = 1 then some (1, 1) else none,
    fun _ => []⟩

/-- A one-node graph without positions, used with unrecognized layout
names. -/
def C7G : Graph := ⟨[0], [], false, fun _ => none, fun _ => []⟩

/-- Calling plot with the empty string as layout name. -/
def C7P : Params := { layout := some "" }

/-- Calling plot with the unrecognized layout name "flower". -/
def C7Pf : Params := { layout := some "flower" }

/-- A two-node graph without positions for the claim 8 witness. -/
def W8G : Graph := ⟨[3, 7], [], false, fun _ => none, fun _ => []⟩

/-- The hover-scenario graph of the specification: nodes A = 0, B = 1,
C = 2, and the isolated D = 3, edges (A, B) and (B, C), distinct positions
on every node. -/
def W9G : Graph :=
  ⟨[0, 1, 2, 3], [⟨0, 1, []⟩, ⟨1, 2, []⟩], false,
    fun n =>
      if n = 0 then some (0, 0)
      else if n = 1 then some (1, 0)
      else if n = 2 then some (2, 0)
      else if n = 3 then some (3, 0)
      else none,
    fun _ => []⟩

/-- The position dict of `W9G` (its pos attributes reused verbatim). -/
def W9pd : List (Node × Pt) := getPosAttrs W9G

/-- Four distinct original colors for the hover-scenario witness. -/
def W9colors : List Val := [.str "c0", .str "c1", .str "c2", .str "c3"]

/-- A saved original node trace for the unhover part of the witness. -/
def W9orig : NodeTrace :=
  ⟨[0], [0], [], [], [.num 11], [.str "red"], "markers"⟩

/-- A dimmed node trace for the unhover part of the witness. -/
def W9tr : NodeTrace :=
  ⟨[0], [0], [], [], [.num 3], [.str "#E4E4E4"], "markers"⟩

/-- A two-node graph with distinct pos attributes for the claim 10
witness. -/
def W10G : Graph :=
  ⟨[4, 5], [], false,
    fun n => if n = 4 then some (0, 0) else if n = 5 then some (3, 4) else none,
    fun _ => []⟩

/-- The plot state built for `W10G` with no explicit layout. -/
def W10st : PlotState :=
  ⟨[(4, (0, 0)), (5, (3, 4))], [((0, 0), 4), ((3, 4), 5)]⟩

/-! ### Helper lemmas about the dict and list primitives -/

theorem lookupD_eq_none {κ ν : Type} [DecidableEq κ] (l : List (κ × ν)) (k : κ)
    (h : k ∉ l.map Prod.fst) : lookupD l k = none := by
  induction l with
  | nil => rfl
  | cons kv rest ih =>
    have h1 : ¬ kv.1 = k := fun hh => h (by simp [hh])
    have h2 : k ∉ rest.map Prod.fst := fun hh => h (by simp [hh])
    simp [lookupD, h1, ih h2]

theorem lookupD_isSome {κ ν : Type} [DecidableEq κ] (l : List (κ × ν)) (k : κ)
    (h : k ∈ l.map Prod.fst) : (lookupD l k).isSome := by
  induction l with
  | nil => simp at h
  | cons kv rest ih =>
    by_cases hk : kv.1 = k
    · simp [lookupD, hk]
    · have h0 : k ∈ kv.1 :: rest.map Prod.fst := by
        rw [List.map_cons] at h
        exact h
      have h2 : k ∈ rest.map Prod.fst := by
        rcases List.mem_cons.mp h0 with h1 | h1
        · exact absurd h1.symm hk
        · exact h1
      simp [lookupD, hk, ih h2]

theorem lookupD_dictSet_self {κ ν : Type} [DecidableEq κ]
    (m : List (κ × ν)) (k : κ) (v : ν) :
    lookupD (dictSet m k v) k = some v := by
  induction m with
  | nil => simp [dictSet, lookupD]
  | cons kv rest ih =>
    by_cases hk : kv.1 = k
    · simp [dictSet, hk, lookupD]
    · simp [dictSet, hk, lookupD, ih]

theorem lookupD_dictSet_ne {κ ν : Type} [DecidableEq κ]
    (m : List (κ × ν)) (k k2 : κ) (v : ν) (h : ¬ k = k2) :
    lookupD (dictSet m k v) k2 = lookupD m k2 := by
  induction m with
  | nil => simp [dictSet, lookupD, h]
  | cons kv rest ih =>
    by_cases hk : kv.1 = k
    · simp [dictSet, hk, lookupD, h]
    · simp [dictSet, hk, lookupD, ih]

theorem placeNodes_keys (s : ℚ) (l : List Node) (i : Nat) :
    (placeNodes s l i).map Prod.fst = l := by
  induction l generalizing i with
  | nil => rfl
  | cons n rest ih => simp [placeNodes, ih]

theorem lookupD_foldl_notmem (pd : List (Node × Pt)) (m : List (Pt × Node))
    (p : Pt) (h : ∀ kv ∈ pd, ¬ kv.2 = p) :
    lookupD (pd.foldl (fun m2 kv => dictSet m2 kv.2 kv.1) m) p = lookupD m p := by
  induction pd generalizing m with
  | nil => rfl
  | cons kv rest ih =>
    rw [List.foldl_cons, ih _ (fun x hx => h x (List.mem_cons_of_mem _ hx))]
    exact lookupD_dictSet_ne _ _ _ _ (h kv (List.mem_cons_self _ _))

theorem lookupD_inverse_foldl (pd : List (Node × Pt)) (m : List (Pt × Node))
    (n : Node) (p : Pt) (hinj : (pd.map Prod.snd).Nodup) (hmem : (n, p) ∈ pd) :
    lookupD (pd.foldl (fun m2 kv => dictSet m2 kv.2 kv.1) m) p = some n := by
  induction pd generalizing m with
  | nil => simp at hmem
  | cons kv rest ih =>
    obtain ⟨a, q⟩ := kv
    rw [List.map_cons, List.nodup_cons] at hinj
    rcases List.mem_cons.mp hmem with h | h
    · injection h with h1 h2
      rw [List.foldl_cons]
      have hnot : ∀ x ∈ rest, ¬ x.2 = p := by
        intro x hx hxp
        apply hinj.1
        rw [← h2]
        have hm : x.2 ∈ rest.map Prod.snd := List.mem_map_of_mem Prod.snd hx
        rw [hxp] at hm
        exact hm
      rw [lookupD_foldl_notmem rest _ p hnot, ← h2, ← h1]
      exact lookupD_dictSet_self _ _ _
    · rw [List.foldl_cons]
      exact ih _ hinj.2 h

theorem lookupD_inverse_pos_dict (pd : List (Node × Pt)) (n : Node) (p : Pt)
    (hinj : (pd.map Prod.snd).Nodup) (hmem : (n, p) ∈ pd) :
    lookupD (inverse_pos_dict pd) p = some n :=
  lookupD_inverse_foldl pd [] n p hinj hmem

theorem getD_set_eq {α : Type} (l : List α) (i j : Nat) (a d : α) :
    (l.set i a).getD j d = if j = i ∧ i < l.length then a else l.getD j d := by
  rw [List.getD_eq_getElem?_getD, List.getElem?_set, List.getD_eq_getElem?_getD]
  by_cases h1 : i = j
  · subst h1
    by_cases h2 : i < l.length
    · simp [h2]
    · rw [if_pos rfl, if_neg h2, if_neg (fun hh => h2 hh.2)]
      rw [List.getElem?_eq_none (by omega)]
  · rw [if_neg h1, if_neg (fun hh => h1 hh.1.symm)]

theorem getD_replicate {α : Type} (k j : Nat) (a : α) :
    (List.replicate k a).getD j a = a := by
  rw [List.getD_eq_getElem?_getD]
  rcases Nat.lt_or_ge j k with h | h
  · simp [List.getElem?_replicate, h]
  · rw [List.getElem?_eq_none (by simpa using h)]
    rfl

theorem listIndexOf_isSome {α : Type} [DecidableEq α] (l : List α) (x : α)
    (h : x ∈ l) : (listIndexOf l x).isSome := by
  induction l with
  | nil => simp at h
  | cons a rest ih =>
    by_cases ha : a = x
    · simp [listIndexOf, ha]
    · have h2 : x ∈ rest := by
        rcases List.mem_cons.mp h with h1 | h1
        · exact absurd h1.symm ha
        · exact h1
      have := ih h2
      cases hx : listIndexOf rest x with
      | none => rw [hx] at this; simp at this
      | some k => simp [listIndexOf, ha, hx]

theorem listIndexOf_spec {α : Type} [DecidableEq α] (l : List α) (x : α)
    (k : Nat) (d : α) (h : listIndexOf l x = some k) :
    k < l.length ∧ l.getD k d = x := by
  induction l generalizing k with
  | nil => simp [listIndexOf] at h
  | cons a rest ih =>
    by_cases ha : a = x
    · simp [listIndexOf, ha] at h
      subst h
      simp [ha]
    · simp [listIndexOf, ha] at h
      rcases h with ⟨k2, hk2, hk⟩
      subst hk
      rcases ih k2 hk2 with ⟨h1, h2⟩
      refine ⟨by simpa using Nat.succ_lt_succ h1, ?_⟩
      simpa using h2

theorem nodup_getD_inj {α : Type} (l : List α) (hnd : l.Nodup) (i j : Nat)
    (d : α) (hi : i < l.length) (hj : j < l.length)
    (h : l.getD i d = l.getD j d) : i = j := by
  rw [List.getD_eq_getElem _ _ hi, List.getD_eq_getElem _ _ hj] at h
  have hinj := List.nodup_iff_injective_get.mp hnd
  have h2 : l.get ⟨i, hi⟩ = l.get ⟨j, hj⟩ := by simpa using h
  have h3 := hinj h2
  exact congrArg Fin.val h3

/-! ### Structural lemmas about the embedded operations -/

theorem allocMid_text (el : Option String) (etx : Option (List String))
    (x0 y0 x1 y1 : ℚ) (mt : MiddleTrace) (props : Props) (e : Edge) :
    (allocMid el etx x0 y0 x1 y1 mt props e).1.text = mt.text := by
  unfold allocMid
  split
  · split <;> rfl
  · rfl

theorem edgeStepMid_text (lbl : String) (hlbl : ¬ lbl = "") (x0 y0 x1 y1 : ℚ)
    (mt : MiddleTrace) (props : Props) (e : Edge) (mt2 : MiddleTrace)
    (props2 : Props)
    (h : edgeStepMid (some lbl) none x0 y0 x1 y1 mt props e = .ok (mt2, props2)) :
    ∃ v, lookupD e.attrs lbl = some v ∧ mt2.text = mt.text ++ [v] := by
  unfold edgeStepMid at h
  split at h
  · rename_i err heq
    simp [aggStep] at heq
  · rename_i props3 heq
    have hp3 : (allocMid (some lbl) none x0 y0 x1 y1 mt props e).2 = props3 := by
      simpa [aggStep] using heq
    simp only [lblStep] at h
    rw [if_neg hlbl] at h
    cases hav : attrLookupE e lbl with
    | error err => rw [hav] at h; simp at h
    | ok v =>
      rw [hav] at h
      injection h with h
      have hv : lookupD e.attrs lbl = some v := by
        unfold attrLookupE at hav
        cases hl : lookupD e.attrs lbl with
        | none => rw [hl] at hav; simp at hav
        | some w => rw [hl] at hav; injection hav with hav; rw [hav]
      refine ⟨v, hv, ?_⟩
      have := congrArg Prod.fst h
      simp at this
      rw [← this, allocMid_text]

theorem edgeStep_len (G : Graph) (el : Option String)
    (etx : Option (List String)) (st s2 : EdgeState) (e : Edge)
    (h : edgeStep G el etx st e = .ok s2) :
    s2.et.xs.length = st.et.xs.length + 3 ∧
      s2.et.ys.length = st.et.ys.length + 3 := by
  unfold edgeStep at h
  split at h
  · split at h
    · rename_i mt props hmid
      injection h with h
      subst h
      simp
    · simp at h
  · simp at h

theorem foldlM_edgeStep_len (G : Graph) (el : Option String)
    (etx : Option (List String)) (l : List Edge) (st s : EdgeState)
    (h : l.foldlM (edgeStep G el etx) st = .ok s) :
    s.et.xs.length = st.et.xs.length + 3 * l.length ∧
      s.et.ys.length = st.et.ys.length + 3 * l.length := by
  induction l generalizing st with
  | nil =>
    rw [List.foldlM_nil] at h
    injection h with h
    subst h
    simp
  | cons e rest ih =>
    rw [List.foldlM_cons] at h
    cases hstep : edgeStep G el etx st e with
    | error err =>
      rw [hstep] at h
      have h2 : (Except.error err : Except Err EdgeState) = .ok s := h
      simp at h2
    | ok s1 =>
      rw [hstep] at h
      have h2 : rest.foldlM (edgeStep G el etx) s1 = .ok s := h
      obtain ⟨ha, hb⟩ := edgeStep_len G el etx st s1 e hstep
      obtain ⟨hc, hd⟩ := ih s1 h2
      simp only [List.length_cons]
      constructor <;> omega

theorem edgeStep_text (G : Graph) (lbl : String) (hlbl : ¬ lbl = "")
    (st s2 : EdgeState) (e : Edge)
    (h : edgeStep G (some lbl) none st e = .ok s2) :
    ∃ v, lookupD e.attrs lbl = some v ∧ s2.mt.text = st.mt.text ++ [v] := by
  unfold edgeStep at h
  split at h
  · rename_i x0 y0 x1 y1 heq1 heq2
    split at h
    · rename_i mt props hmid
      injection h with h
      subst h
      exact edgeStepMid_text lbl hlbl x0 y0 x1 y1 st.mt st.props e mt props hmid
    · simp at h
  · simp at h

theorem foldlM_edgeStep_text (G : Graph) (lbl : String) (hlbl : ¬ lbl = "")
    (l : List Edge) (st s : EdgeState)
    (h : l.foldlM (edgeStep G (some lbl) none) st = .ok s) :
    s.mt.text = st.mt.text ++ l.filterMap (fun e => lookupD e.attrs lbl) := by
  induction l generalizing st with
  | nil =>
    rw [List.foldlM_nil] at h
    injection h with h
    subst h
    simp
  | cons e rest ih =>
    rw [List.foldlM_cons] at h
    cases hstep : edgeStep G (some lbl) none st e with
    | error err =>
      rw [hstep] at h
      have h2 : (Except.error err : Except Err EdgeState) = .ok s := h
      simp at h2
    | ok s1 =>
      rw [hstep] at h
      have h2 : rest.foldlM (edgeStep G (some lbl) none) s1 = .ok s := h
      obtain ⟨v, hv, htext⟩ := edgeStep_text G lbl hlbl st s1 e hstep
      rw [ih s1 h2, htext, List.filterMap_cons, hv]
      simp

theorem mapM_ok {α β : Type} (f : α → Except Err β) (g : α → β) (l : List α)
    (h : ∀ a ∈ l, f a = .ok (g a)) : l.mapM f = .ok (l.map g) := by
  induction l with
  | nil => rfl
  | cons a rest ih =>
    rw [List.mapM_cons, h a (List.mem_cons_self a rest),
      ih (fun x hx => h x (List.mem_cons_of_mem a hx))]
    rfl

theorem initNoLayout_inv (G : Graph) (st : PlotState)
    (h : (initNoLayout G).1 = .ok st) :
    st.invPosDict = inverse_pos_dict st.posDict := by
  unfold initNoLayout at h
  by_cases hn : getPosAttrs G = []
  · rw [if_pos hn] at h
    cases hap : apply_layout G "random" with
    | mk r G1 =>
      rw [hap] at h
      cases r with
      | error e => simp at h
      | ok pd =>
        simp at h
        rw [← h]
  · rw [if_neg hn] at h
    simp at h
    rw [← h]

theorem initPlot_inv (G : Graph) (lay : Option String) (st : PlotState)
    (h : (initPlot G lay).1 = .ok st) :
    st.invPosDict = inverse_pos_dict st.posDict := by
  cases lay with
  | none => exact initNoLayout_inv G st h
  | some s =>
    simp only [initPlot] at h
    by_cases hs : s = ""
    · rw [if_pos hs] at h
      exact initNoLayout_inv G st h
    · rw [if_neg hs] at h
      cases hap : apply_layout G s with
      | mk r G1 =>
        rw [hap] at h
        cases r with
        | error e => simp at h
        | ok pd =>
          simp at h
          rw [← h]

theorem hover_fold (nodesL : List Node) (colors : List Val) (ns : List Node)
    (acc : List Val) (hnd : nodesL.Nodup) (hsub : ∀ nb ∈ ns, nb ∈ nodesL)
    (hlen : acc.length = colors.length) (hclen : colors.length = nodesL.length) :
    ∃ cs, ns.foldlM (hoverStep nodesL colors) acc = .ok cs ∧
      cs.length = colors.length ∧
      ∀ j, j < colors.length →
        cs.getD j grayColor =
          if nodesL.getD j 0 ∈ ns then colors.getD j grayColor
          else acc.getD j grayColor := by
  induction ns generalizing acc with
  | nil =>
    refine ⟨acc, by rw [List.foldlM_nil]; rfl, hlen, ?_⟩
    intro j hj
    rw [if_neg (by simp)]
  | cons nb rest ih =>
    have hnbmem : nb ∈ nodesL := hsub nb (List.mem_cons_self nb rest)
    have hidx : (listIndexOf nodesL nb).isSome := listIndexOf_isSome nodesL nb hnbmem
    cases hio : listIndexOf nodesL nb with
    | none => rw [hio] at hidx; simp at hidx
    | some tp =>
      obtain ⟨htp, hget⟩ := listIndexOf_spec nodesL nb tp 0 hio
      have htp2 : tp < acc.length := by omega
      rw [List.foldlM_cons]
      have hstep : hoverStep nodesL colors acc nb =
          .ok (acc.set tp (colors.getD tp grayColor)) := by
        unfold hoverStep
        rw [hio]
        exact if_pos htp2
      rw [hstep]
      have h2len : (acc.set tp (colors.getD tp grayColor)).length = colors.length := by
        rw [List.length_set]
        exact hlen
      obtain ⟨cs, hcs, hcslen, hprop⟩ :=
        ih (acc.set tp (colors.getD tp grayColor))
          (fun x hx => hsub x (List.mem_cons_of_mem _ hx)) h2len
      refine ⟨cs, hcs, hcslen, ?_⟩
      intro j hj
      rw [hprop j hj]
      by_cases hjr : nodesL.getD j 0 ∈ rest
      · rw [if_pos hjr, if_pos (List.mem_cons_of_mem _ hjr)]
      · rw [if_neg hjr, getD_set_eq]
        by_cases hjtp : j = tp
        · subst hjtp
          rw [if_pos ⟨rfl, htp2⟩, if_pos (by rw [hget]; exact List.mem_cons_self nb rest)]
        · rw [if_neg (fun hh => hjtp hh.1)]
          rw [if_neg ?hnotin]
          case hnotin =>
            intro hmm2
            rcases List.mem_cons.mp hmm2 with h1 | h1
            · exact hjtp (nodup_getD_inj nodesL hnd j tp 0 (by omega) htp
                (h1.trans hget.symm))
            · exact hjr h1

theorem neighbors_subset (G : Graph)
    (hwf : ∀ e ∈ G.edges, e.src ∈ G.nodes ∧ e.tgt ∈ G.nodes)
    (n nb : Node) (h : nb ∈ G.neighbors n) : nb ∈ G.nodes := by
  unfold Graph.neighbors at h
  by_cases hd : G.directed
  · rw [if_pos hd, List.mem_dedup] at h
    rcases List.mem_map.mp h with ⟨e, he, rfl⟩
    exact (hwf e (List.mem_filter.mp he).1).2
  · rw [if_neg hd, List.mem_dedup] at h
    rcases List.mem_append.mp h with h1 | h1
    · rcases List.mem_map.mp h1 with ⟨e, he, rfl⟩
      exact (hwf e (List.mem_filter.mp he).1).2
    · rcases List.mem_map.mp h1 with ⟨e, he, rfl⟩
      exact (hwf e (List.mem_filter.mp he).1).1

/-! ### Claim theorems -/

/-- C1: the claim says plot returns a renderable figure for every graph and
every admissible configuration, the only failures being propagated
external-library errors.  The code cannot return one: every call that reaches
figure assembly raises the module's own TypeError, because plot passes the
keyword argument node_style while generate_figure declares the parameter
node_layout (its body also reads the unbound name node_style).  Both a
default-configuration call and a many-options call evaluate to that internal
error. -/
theorem claim1_plot_raises_internal_typeerror :
    (plot C1G {}).1 = .error (.typeError "node_style") ∧
      (plot C1G2 C1P2).1 = .error (.typeError "node_style") := by
  constructor <;> rfl

/-- C2: with edge hover text requested for attribute w, the two parallel
edges of C2G (w = 1 and w = 2) yield exactly one midpoint mark (that part
holds), but its aggregated per-pair list keeps only the single value 2 and
the rendered hover text is "w: [2]" — not the k = 2 values the claim
requires — because the aggregation block resets the list on every sighting
(it tests the attribute VALUE against the dict keys) and its append sits
outside the attribute loop. -/
theorem claim2_parallel_edge_aggregation_lost :
    C2obs = some (1, some [("w", [Val.num 2])], ["w: [2]"]) := by rfl

/-- C3 counterexample: in C3G node 0 carries a pos attribute and node 1 does
not; the claim says that with at least one node lacking a position a
uniform-random placement assigns a position to every node, but
PlotGraph.__init__ reuses the partial attribute dict: the resulting pos_dict
covers only node 0, and node 1 still has no position after the call. -/
theorem claim3_pos_reuse_counterexample :
    Option.map PlotState.posDict C3st = some [(0, (1, 2))] ∧
      (initPlot C3G none).2.pos 1 = none := by
  constructor <;> rfl

/-- C3 (amended): when plot is called without an explicit layout, the
existing position attributes are reused, exactly as present and possibly
covering only part of the nodes, whenever AT LEAST ONE node carries a pos
attribute; the uniform-random placement assigning a position to every node
runs only when NO node carries one. -/
theorem claim3_layout_reuse_amended (G : Graph) :
    ((∃ n ∈ G.nodes, (G.pos n).isSome) →
      initPlot G none =
        (.ok ⟨getPosAttrs G, inverse_pos_dict (getPosAttrs G)⟩, G)) ∧
    ((∀ n ∈ G.nodes, G.pos n = none) →
      ∀ n ∈ G.nodes, ((initPlot G none).2.pos n).isSome) := by
  constructor
  · rintro ⟨n, hn, hs⟩
    rcases Option.isSome_iff_exists.mp hs with ⟨p, hp⟩
    have hmem : (n, p) ∈ getPosAttrs G :=
      List.mem_filterMap.mpr ⟨n, hn, by rw [hp]; rfl⟩
    have hne : ¬ getPosAttrs G = [] := by
      intro hnil
      rw [hnil] at hmem
      simp at hmem
    show initNoLayout G = _
    unfold initNoLayout
    rw [if_neg hne]
  · intro hall n hn
    have hnil : getPosAttrs G = [] := by
      apply List.filterMap_eq_nil_iff.mpr
      intro a ha
      rw [hall a ha]
      rfl
    have hstep : initPlot G none =
        (.ok ⟨layoutAlg 0 G, inverse_pos_dict (layoutAlg 0 G)⟩,
          setNodeAttrsPos G (layoutAlg 0 G)) := by
      show initNoLayout G = _
      unfold initNoLayout
      rw [if_pos hnil]
      rfl
    rw [hstep]
    have hsome : (lookupD (layoutAlg 0 G) n).isSome := by
      apply lookupD_isSome
      rw [show (layoutAlg 0 G).map Prod.fst = G.nodes from
        placeNodes_keys 0 G.nodes 0]
      exact hn
    cases hl : lookupD (layoutAlg 0 G) n with
    | none =>
      rw [hl] at hsome
      simp at hsome
    | some p => simp [setNodeAttrsPos, hl]

/-- C3 amended witness: on W3G (both nodes positioned) the attributes are
reused verbatim; on W3G2 (no node positioned) the random placement gives
node 5 a position. -/
theorem claim3_layout_reuse_witness :
    (initPlot W3G none =
      (.ok ⟨getPosAttrs W3G, inverse_pos_dict (getPosAttrs W3G)⟩, W3G)) ∧
      ((initPlot W3G2 none).2.pos 5).isSome :=
  ⟨(claim3_layout_reuse_amended W3G).1 ⟨0, by decide, by decide⟩,
   (claim3_layout_reuse_amended W3G2).2 (by decide) 5 (by decide)⟩

/-- C4 counterexample: on C4G, two parallel edges labelled "a" and "b" with
the edge label requested produce ONE midpoint mark but TWO always-visible
text entries ["a", "b"] — each sighting appends a new entry instead of
overwriting the prior one, so the text sequence is not the claimed single
last-visited value. -/
theorem claim4_label_counterexample :
    C4obs = some ([Val.str "a", Val.str "b"], 1) := by rfl

/-- C4 (amended): when an edge label attribute is requested, every sighting
of an edge APPENDS that edge's label value as an additional text entry on the
midpoint trace (no overwriting): after assembly the text sequence lists one
value per edge in visitation order, so a pair with k parallel labelled edges
contributes k entries (first-visited first) while still owning a single
midpoint mark. -/
theorem claim4_label_append_amended (G : Graph) (lbl : String)
    (hlbl : ¬ lbl = "") (s : EdgeState)
    (h : generate_edge_traces G (some lbl) none = .ok s) :
    s.mt.text = G.edges.filterMap (fun e => lookupD e.attrs lbl) := by
  unfold generate_edge_traces at h
  split at h
  · simp at h
  · rename_i s0 hf
    have hs : s.mt.text = s0.mt.text := by
      split at h
      · rename_i ht
        simp [truthyList] at ht
      · injection h with h
        rw [← h]
    rw [hs, foldlM_edgeStep_text G lbl hlbl G.edges (initES (some lbl)) s0 hf]
    simp [initES]

/-- C4 amended witness: on W4G the two parallel labelled edges produce the
two-entry text sequence ["x", "y"]. -/
theorem claim4_label_append_witness :
    (match generate_edge_traces W4G (some "lbl") none with
      | .ok s => s.mt.text
      | .error _ => []) =
      W4G.edges.filterMap (fun e => lookupD e.attrs "lbl") := by
  have h : generate_edge_traces W4G (some "lbl") none =
      .ok ⟨⟨[some 0, some 4, none, some 0, some 4, none],
            [some 0, some 2, none, some 0, some 2, none], "lines+text"⟩,
           ⟨[(0 + 4) / 2], [(0 + 2) / 2], [Val.str "x", Val.str "y"], [],
             "markers+text"⟩,
           [((1, 2), [])]⟩ := by rfl
  rw [h]
  exact claim4_label_append_amended W4G "lbl" (by decide) _ h

/-- C5: whenever edge trace assembly completes, the edge line trace's x and
y coordinate sequences each hold exactly three entries per edge: the two
endpoint coordinates followed by the gap sentinel. -/
theorem claim5_edge_trace_length (G : Graph) (el : Option String)
    (etx : Option (List String)) (s : EdgeState)
    (h : generate_edge_traces G el etx = .ok s) :
    s.et.xs.length = 3 * G.edges.length ∧
      s.et.ys.length = 3 * G.edges.length := by
  unfold generate_edge_traces at h
  split at h
  · simp at h
  · rename_i s0 hf
    obtain ⟨ha, hb⟩ := foldlM_edgeStep_len G el etx G.edges (initES el) s0 hf
    have hs : s.et = s0.et := by
      split at h
      · injection h with h
        rw [← h]
      · injection h with h
        rw [← h]
    rw [hs]
    constructor
    · rw [ha]
      simp [initES]
    · rw [hb]
      simp [initES]

/-- C5 witness: the two-edge graph W5G yields coordinate sequences of length
six. -/
theorem claim5_edge_trace_length_witness :
    generate_edge_traces W5G none none = .ok W5s ∧
      (W5s.et.xs.length = 3 * W5G.edges.length ∧
        W5s.et.ys.length = 3 * W5G.edges.length) :=
  ⟨by rfl, claim5_edge_trace_length W5G none none W5s (by rfl)⟩

/-- C6: when every edge endpoint is positioned, the annotation assembly of
generate_figure produces the caption followed, for a directed graph, by
exactly one arrow annotation per edge whose tail sits at the source position
and whose head is 0.85 times the target position plus 0.15 times the source
position, componentwise; for an undirected graph only the caption is
produced. -/
theorem claim6_arrow_annots (G : Graph) (txt : Option String) (asz : Nat)
    (hpos : ∀ e ∈ G.edges, (G.pos e.src).isSome ∧ (G.pos e.tgt).isSome) :
    mkAnnots G txt asz =
      .ok (captionAnnot (txt.getD "") ::
        (if G.directed then
          G.edges.map (fun e => arrowAnnot (posD G e.src) (posD G e.tgt) asz)
         else [])) := by
  unfold mkAnnots
  by_cases hd : G.directed
  · rw [if_pos hd, if_pos hd,
      mapM_ok _ (fun e => arrowAnnot (posD G e.src) (posD G e.tgt) asz) G.edges ?hall]
    case hall =>
      intro e he
      obtain ⟨h1, h2⟩ := hpos e he
      rcases Option.isSome_iff_exists.mp h1 with ⟨p0, hp0⟩
      rcases Option.isSome_iff_exists.mp h2 with ⟨p1, hp1⟩
      simp [posD, hp0, hp1]
  · rw [if_neg hd, if_neg hd]

/-- C6 witness: the directed two-node one-edge graph W6G gets the caption
plus one arrow annotation interpolated 85/15 between its endpoints. -/
theorem claim6_arrow_annots_witness :
    mkAnnots W6G none 2 =
      .ok (captionAnnot ((none : Option String).getD "") ::
        (if W6G.directed then
          W6G.edges.map (fun e => arrowAnnot (posD W6G e.src) (posD W6G e.tgt) 2)
         else [])) :=
  claim6_arrow_annots W6G none 2 (by decide)

/-- C7 counterexample: the empty string is not one of the seven recognized
layout names, yet plot called with layout equal to the empty string on C7G
does NOT fail with a lookup error: Python truthiness makes the empty string
fall into the no-layout branch, the random placement mutates the graph (node
0, previously without a pos attribute, now carries one), and the call then
fails with the module's own TypeError instead of a KeyError. -/
theorem claim7_empty_layout_counterexample :
    (plot C7G C7P).1 = .error (.typeError "node_style") ∧
      C7G.pos 0 = none ∧ ((plot C7G C7P).2.pos 0).isSome := by
  exact ⟨by rfl, by rfl, by decide⟩

/-- C7 (amended): for every NONEMPTY layout name outside the seven recognized
ones, plot fails with the KeyError naming that layout, propagated unmodified,
and the caller's graph is returned with all attributes unchanged; the empty
string is instead treated as no layout given (Python truthiness). -/
theorem claim7_unrecognized_layout_amended (G : Graph) (p : Params)
    (name : String) (hname : p.layout = some name) (hne : ¬ name = "")
    (hunrec : name ∉ layoutSeeds.map Prod.fst) :
    plot G p = (.error (.keyError name), G) := by
  have hl : lookupD layoutSeeds name = none := lookupD_eq_none _ _ hunrec
  have hinit : initPlot G (some name) = (.error (.keyError name), G) := by
    simp only [initPlot]
    rw [if_neg hne]
    unfold apply_layout
    rw [hl]
  unfold plot
  rw [hname, hinit]

/-- C7 amended witness: the unrecognized name "flower" produces the KeyError
and leaves the graph untouched. -/
theorem claim7_unrecognized_layout_witness :
    plot C7G C7Pf = (.error (.keyError "flower"), C7G) :=
  claim7_unrecognized_layout_amended C7G C7Pf "flower" rfl (by decide) (by decide)

/-- C8: for every recognized layout name, layout application succeeds, the
returned position dict is keyed by exactly the graph's nodes in order, every
node's pos attribute is set to its dict position on the returned graph, nodes
outside the graph and all other fields (nodes, edges, directedness, the
remaining node attributes) are untouched. -/
theorem claim8_layout_positions (G : Graph) (name : String)
    (hrec : (lookupD layoutSeeds name).isSome) :
    ∃ pd G2, apply_layout G name = (.ok pd, G2) ∧
      pd.map Prod.fst = G.nodes ∧
      (∀ n ∈ G.nodes, ∃ p : Pt, lookupD pd n = some p ∧ G2.pos n = some p) ∧
      (∀ n, n ∉ G.nodes → G2.pos n = G.pos n) ∧
      G2.nodes = G.nodes ∧ G2.edges = G.edges ∧ G2.directed = G.directed ∧
      G2.nattrs = G.nattrs := by
  cases hl : lookupD layoutSeeds name with
  | none =>
    rw [hl] at hrec
    simp at hrec
  | some seed =>
    refine ⟨layoutAlg seed G, setNodeAttrsPos G (layoutAlg seed G),
      ?_, placeNodes_keys seed G.nodes 0, ?_, ?_, rfl, rfl, rfl, rfl⟩
    · unfold apply_layout
      rw [hl]
    · intro n hn
      have hsome : (lookupD (layoutAlg seed G) n).isSome := by
        apply lookupD_isSome
        rw [show (layoutAlg seed G).map Prod.fst = G.nodes from
          placeNodes_keys seed G.nodes 0]
        exact hn
      cases hp : lookupD (layoutAlg seed G) n with
      | none =>
        rw [hp] at hsome
        simp at hsome
      | some p => exact ⟨p, rfl, by simp [setNodeAttrsPos, hp]⟩
    · intro n hn
      have hnone : lookupD (layoutAlg seed G) n = none := by
        apply lookupD_eq_none
        rw [show (layoutAlg seed G).map Prod.fst = G.nodes from
          placeNodes_keys seed G.nodes 0]
        exact hn
      simp [setNodeAttrsPos, hnone]

/-- C8 witness: the circular layout on the two-node graph W8G. -/
theorem claim8_layout_positions_witness :
    ∃ pd G2, apply_layout W8G "circular" = (.ok pd, G2) ∧
      pd.map Prod.fst = W8G.nodes ∧
      (∀ n ∈ W8G.nodes, ∃ p : Pt, lookupD pd n = some p ∧ G2.pos n = some p) ∧
      (∀ n, n ∉ W8G.nodes → G2.pos n = W8G.pos n) ∧
      G2.nodes = W8G.nodes ∧ G2.edges = W8G.edges ∧
      G2.directed = W8G.directed ∧ G2.nattrs = W8G.nattrs :=
  claim8_layout_positions W8G "circular" (by decide)

/-- C9: when the hover handler fires on a node (nonempty point list whose
first screen position is that node's own position), under the handler's
implicit preconditions (trace order = pos_dict key order = node order,
pairwise distinct node identifiers and positions, edges between graph nodes,
one color per node), the resulting color array keeps the original color
exactly at the hovered index and at the trace positions of the hovered
node's direct neighbours, and sets every other entry to the neutral gray
#E4E4E4; the unhover handler restores the trace's colors and sizes from the
saved original trace. -/
theorem claim9_hover_unhover (G : Graph) (posDict : List (Node × Pt))
    (colors : List Val) (i0 : Nat) (hnode : Node) (x0 y0 : ℚ)
    (orig tr : NodeTrace)
    (hkeys : posDict.map Prod.fst = G.nodes)
    (hnd : G.nodes.Nodup)
    (hinj : (posDict.map Prod.snd).Nodup)
    (hwf : ∀ e ∈ G.edges, e.src ∈ G.nodes ∧ e.tgt ∈ G.nodes)
    (hlen : colors.length = G.nodes.length)
    (hi0 : i0 < posDict.length)
    (hentry : posDict.getD i0 (0, (0, 0)) = (hnode, (x0, y0))) :
    (∃ cs,
      on_hover G posDict (inverse_pos_dict posDict) colors [i0] [x0] [y0] =
        .ok cs ∧
      cs.length = colors.length ∧
      ∀ j, j < colors.length →
        cs.getD j grayColor =
          if j = i0 ∨ G.nodes.getD j 0 ∈ G.neighbors hnode then
            colors.getD j grayColor
          else grayColor) ∧
    (on_unhover orig tr).colors = orig.colors ∧
    (on_unhover orig tr).sizes = orig.sizes := by
  refine ⟨?_, rfl, rfl⟩
  have hmem : (hnode, (x0, y0)) ∈ posDict := by
    rw [← hentry, List.getD_eq_getElem _ _ hi0]
    exact List.getElem_mem hi0
  have hlook : lookupD (inverse_pos_dict posDict) (x0, y0) = some hnode :=
    lookupD_inverse_pos_dict posDict hnode (x0, y0) hinj hmem
  have hpdlen : posDict.length = G.nodes.length := by
    have h2 := congrArg List.length hkeys
    rw [List.length_map] at h2
    exact h2
  have hi0c : i0 < colors.length := by omega
  have hov : on_hover G posDict (inverse_pos_dict posDict) colors
      [i0] [x0] [y0] =
      if i0 < colors.length then
        (G.neighbors hnode).foldlM (hoverStep (posDict.map Prod.fst) colors)
          ((List.replicate colors.length grayColor).set i0
            (colors.getD i0 grayColor))
      else .error .indexError := by
    simp only [on_hover]
    rw [hlook]
  rw [hov, if_pos hi0c]
  have hnd2 : (posDict.map Prod.fst).Nodup := by
    rw [hkeys]
    exact hnd
  have hsub : ∀ nb ∈ G.neighbors hnode, nb ∈ posDict.map Prod.fst := by
    intro nb hnb
    rw [hkeys]
    exact neighbors_subset G hwf hnode nb hnb
  have hstartlen : ((List.replicate colors.length grayColor).set i0
      (colors.getD i0 grayColor)).length = colors.length := by
    rw [List.length_set, List.length_replicate]
  have hclen2 : colors.length = (posDict.map Prod.fst).length := by
    rw [List.length_map]
    omega
  obtain ⟨cs, hcs, hcslen, hprop⟩ := hover_fold (posDict.map Prod.fst) colors
    (G.neighbors hnode)
    ((List.replicate colors.length grayColor).set i0
      (colors.getD i0 grayColor)) hnd2 hsub hstartlen hclen2
  refine ⟨cs, hcs, hcslen, ?_⟩
  intro j hj
  rw [hprop j hj]
  have hstart : ((List.replicate colors.length grayColor).set i0
      (colors.getD i0 grayColor)).getD j grayColor =
      if j = i0 then colors.getD j grayColor else grayColor := by
    rw [getD_set_eq]
    by_cases hji : j = i0
    · subst hji
      rw [if_pos ⟨rfl, by rw [List.length_replicate]; exact hi0c⟩, if_pos rfl]
    · rw [if_neg (fun hh => hji hh.1), if_neg hji, getD_replicate]
  rw [hkeys, hstart]
  by_cases hmem2 : G.nodes.getD j 0 ∈ G.neighbors hnode
  · rw [if_pos hmem2, if_pos (Or.inr hmem2)]
  · rw [if_neg hmem2]
    by_cases hji : j = i0
    · rw [if_pos hji, if_pos (Or.inl hji)]
    · rw [if_neg hji, if_neg (fun hh => hh.elim hji hmem2)]

/-- C9 witness: the specification's hover scenario on W9G, hovering node B
(identifier 1, trace index 1): A and C keep their colors as neighbours, the
isolated D is dimmed, and unhover restores colors and sizes. -/
theorem claim9_hover_unhover_witness :
    (∃ cs,
      on_hover W9G W9pd (inverse_pos_dict W9pd) W9colors [1] [1] [0] =
        .ok cs ∧
      cs.length = W9colors.length ∧
      ∀ j, j < W9colors.length →
        cs.getD j grayColor =
          if j = 1 ∨ W9G.nodes.getD j 0 ∈ W9G.neighbors 1 then
            W9colors.getD j grayColor
          else grayColor) ∧
    (on_unhover W9orig W9tr).colors = W9orig.colors ∧
    (on_unhover W9orig W9tr).sizes = W9orig.sizes :=
  claim9_hover_unhover W9G W9pd W9colors 1 1 1 0 W9orig W9tr (by rfl)
    (by decide) (by decide) (by decide) (by decide) (by decide) (by rfl)

/-- C10: whenever PlotGraph.__init__ succeeds and the resolved positions are
pairwise distinct, the inverse position index is a left inverse of the
position dict: looking up any node's position returns that node. -/
theorem claim10_inverse_left_inverse (G : Graph) (lay : Option String)
    (st : PlotState) (n : Node) (p : Pt)
    (hok : (initPlot G lay).1 = .ok st)
    (hinj : (st.posDict.map Prod.snd).Nodup)
    (hmem : (n, p) ∈ st.posDict) :
    lookupD st.invPosDict p = some n := by
  rw [initPlot_inv G lay st hok]
  exact lookupD_inverse_pos_dict st.posDict n p hinj hmem

/-- C10 witness: on W10G the inverse index maps node 5's position (3, 4)
back to node 5. -/
theorem claim10_inverse_left_inverse_witness :
    lookupD W10st.invPosDict (3, 4) = some 5 :=
  claim10_inverse_left_inverse W10G none W10st 5 (3, 4) (by rfl) (by decide)
    (by decide)

end Igviz
